import Mathlib

/-!
Verification of the CSV join script Union_SMwithASA.py from the repository
Predicting-Vulnerable-Code.

Input files are modelled as the lists of strings that Python file
iteration yields: every line carries its trailing newline character,
except possibly the final line of a file.  The string operations used by
the script are modelled over the code point list String.data: splitting on
a single separator character, removal of every occurrence of a single
character (the script only ever calls replace with a one character
pattern and an empty replacement), and slicing.  Writes to the output
file are collected in order into a list of strings; the two consecutive
header writes of the script are merged into one entry.  Uncaught Python
exceptions are modelled by the error component of the result: the
IndexError raised by an out of range field extraction is the
MalformedRecord failure of the specification, the ValueError raised by
removing an absent value from a list is valueError.
-/

/-- Removal of every occurrence of one character: the model of the Python
call replace(c, "") with a single character pattern. -/
def removeChar (c : Char) (s : String) : String :=
  String.mk (s.data.filter (fun x => x ≠ c))

/-- Worker for splitting on one separator character, carrying the reversed
current field. -/
def splitCharAux (c : Char) : List Char → List Char → List String
  | [], acc => [String.mk acc.reverse]
  | x :: xs, acc =>
    if x = c then String.mk acc.reverse :: splitCharAux c xs []
    else splitCharAux c xs (x :: acc)

/-- Model of the Python call split(c) with a one character separator: like
Python, splitting the empty string yields one empty field. -/
def splitChar (c : Char) (s : String) : List String :=
  splitCharAux c s.data []

/-- Model of the Python slice s[:-n]: drop the final n code points. -/
def dropRightN (s : String) (n : Nat) : String :=
  String.mk (s.data.take (s.data.length - n))

/-- Concatenation of a list of strings. -/
def catList : List String → String
  | [] => ""
  | a :: l => a ++ catList l

/-- Model of the Python list.remove call: remove the first occurrence of x
by value, failing when x is absent. -/
def pyRemove : List String → String → Option (List String)
  | [], _ => none
  | a :: l, x => if a = x then some l else (pyRemove l x).map (fun r => a :: r)

/-- The accumulation loops of another_option: append every element with a
trailing comma, stripping newline characters from each element. -/
def joinTrailing (l : List String) : String :=
  l.foldl (fun acc e => acc ++ removeChar '\n' e ++ ",") ""

/-- Errors with which the script aborts: malformedRecord models the Python
IndexError raised by an out of range field extraction, valueError the
Python ValueError raised by removing an absent value from a list. -/
inductive JoinErr where
  | malformedRecord : JoinErr
  | valueError : JoinErr
deriving DecidableEq

/-- Model of getClass (Union_SMwithASA.py lines 129 to 134): the last
comma delimited field of a line. -/
def getClass (line : String) : String :=
  (splitChar ',' line).getLastD ""

/-- The class element computed for a software metrics line (line 59 and
line 60 of the script): the last field with all spaces removed; a trailing
newline survives. -/
def classElem (line : String) : String :=
  removeChar ' ' (getClass line)

/-- The file identifier of a software metrics line (line 57 of the
script): the second comma delimited field with double quotes removed, or
none when the line has fewer than two fields. -/
def fileNameSm (line : String) : Option String :=
  ((splitChar ',' line)[1]?).map (fun f => removeChar '"' f)

/-- The identifier of a static analysis line (line 63 of the script): the
first comma delimited field with double quotes removed. -/
def asaIdent (line : String) : String :=
  removeChar '"' ((splitChar ',' line).headD "")

/-- Model of another_option called with line_sm = None (lines 102 to 115):
strip spaces and newlines from the whole line, split on commas, remove the
first occurrence of the stripped class element (failing when absent), skip
the first remaining element and append every later element with a trailing
comma. -/
def another_option_asa (line_asa class_element : String) : Option String :=
  let ce := removeChar '\n' (removeChar ' ' class_element)
  let lista := splitChar ',' (removeChar '\n' (removeChar ' ' line_asa))
  (pyRemove lista ce).map (fun l => joinTrailing (l.drop 1))

/-- Model of another_option called with line_asa = None (lines 116 to
123): split on commas, remove the first occurrence of the class element
(failing when absent) and append every remaining element, newline
stripped, with a trailing comma. -/
def another_option_sm (line_sm class_element : String) : Option String :=
  (pyRemove (splitChar ',' line_sm) class_element).map joinTrailing

/-- The metrics portion emitted for a software metrics line (line 61 of
the script). -/
def smPortion (line : String) : Option String :=
  another_option_sm line (classElem line)

/-- The loop of lines 74 to 76 writing n zero tokens, each comma
terminated. -/
def zeroFill : Nat → String
  | 0 => ""
  | n + 1 => zeroFill n ++ "0,"

/-- The inner loop of initialize over the static analysis data lines
(lines 62 to 72): returns the lines written for the matches in order, the
found flag, and the error aborting the scan when a matched line fails
field removal. -/
def scanAsa (file_name_sm element_sm class_element : String) :
    List String → List String × Bool × Option JoinErr
  | [] => ([], false, none)
  | line_asa :: rest =>
    if file_name_sm = asaIdent line_asa then
      match another_option_asa line_asa class_element with
      | none => ([], false, some JoinErr.valueError)
      | some element_ASA =>
        let w := element_sm ++ element_ASA ++ class_element
        let r := scanAsa file_name_sm element_sm class_element rest
        (w :: r.1, true, r.2.2)
    else
      scanAsa file_name_sm element_sm class_element rest

/-- Processing of one software metrics data line (lines 54 to 77):
extract the identifier (IndexError when fewer than two fields), compute
the class element and the metrics portion (ValueError when removal
fails), scan the static analysis data lines, and write the zero filled
line when no match was found. -/
def processRecord (asaData : List String) (line_sm : String) :
    List String × Option JoinErr :=
  match (splitChar ',' line_sm)[1]? with
  | none => ([], some JoinErr.malformedRecord)
  | some f2 =>
    let file_name_sm := removeChar '"' f2
    let class_element := classElem line_sm
    match another_option_sm line_sm class_element with
    | none => ([], some JoinErr.valueError)
    | some element_sm =>
      match scanAsa file_name_sm element_sm class_element asaData with
      | (ws, _, some e) => (ws, some e)
      | (ws, found, none) =>
        if found then (ws, none)
        else (ws ++ [element_sm ++ zeroFill 19 ++ class_element], none)

/-- Folding processRecord over the software metrics data lines: an
uncaught exception stops the loop, keeping the writes made so far. -/
def runRecords (asaData : List String) : List String → List String × Option JoinErr
  | [] => ([], none)
  | line_sm :: rest =>
    match processRecord asaData line_sm with
    | (ws, some e) => (ws, some e)
    | (ws, none) =>
      let r2 := runRecords asaData rest
      (ws ++ r2.1, r2.2)

/-- The merged header written for the first software metrics line and the
first static analysis line (lines 37 to 51): the code takes the list
slice [1:20] of the static analysis header fields, prefixes every taken
field with a comma, drops the last seven characters of the software
metrics header, and appends ",class" and a newline (the two write calls
are merged into one entry). -/
def headerLine (line_sm line_asa : String) : String :=
  let withoutFirst2Argument := ((splitChar ',' line_asa).drop 1).take 19
  let asaPart := withoutFirst2Argument.foldl (fun acc e => acc ++ "," ++ e) ""
  let withoutClassInMining := dropRightN line_sm 7
  withoutClassInMining ++ asaPart ++ ",class" ++ "\n"

/-- Model of the function initialize of Union_SMwithASA.py: the first
software metrics line and the first static analysis line produce the
merged header; every later software metrics line is processed against the
static analysis data lines (the file is rewound and its header skipped
for each record).  The result is the ordered list of written strings
together with the error that aborted the run, if any. -/
def joinInit (smLines asaLines : List String) : List String × Option JoinErr :=
  match smLines with
  | [] => ([], none)
  | line_sm :: rest =>
    let r := runRecords (asaLines.drop 1) rest
    (headerLine line_sm (asaLines.headD "") :: r.1, r.2)

/-- Number of static analysis data lines whose identifier equals the
given file identifier. -/
def matchCount (asaData : List String) (fn : String) : Nat :=
  (asaData.filter (fun a => decide (fn = asaIdent a))).length

/-- Stream lifecycle events. -/
inductive StreamEvent where
  | openStream : String → StreamEvent
  | closeStream : String → StreamEvent
deriving DecidableEq

/-- Stream events performed by initialize: it opens the software metrics
file (line 22) and the static analysis file (line 26); the function body
contains no close call on any path, so every exception propagates without
a release and even a normal return releases nothing. -/
def joinInitEvents (_smLines _asaLines : List String) : List StreamEvent :=
  [StreamEvent.openStream "csv_sm", StreamEvent.openStream "csv_asa"]

/-- Stream events of main (lines 137 to 141): it opens the output file
and then calls initialize; no close call exists on any path. -/
def mainStreamEvents (smLines asaLines : List String) : List StreamEvent :=
  StreamEvent.openStream "new_Union" :: joinInitEvents smLines asaLines

/-- Recognizer of close events. -/
def isClose : StreamEvent → Bool
  | StreamEvent.closeStream _ => true
  | StreamEvent.openStream _ => false

/-- Claim side description of the leading metrics portion of an output
record: every field of the software metrics record except the last (the
class label), in order, each with a trailing comma. -/
def specLeading (line : String) : String :=
  catList (((splitChar ',' line).dropLast).map (fun f => f ++ ","))

/-- The output contains a record made of the given leading fields, some
middle portion, and the given trailing class label. -/
def hasRecordWith (writes : List String) (leading classLabel : String) : Prop :=
  ∃ w ∈ writes, ∃ mid : String, w = leading ++ mid ++ classLabel

/-- The last code point of a string, with a space default for the empty
string. -/
def lastChar (s : String) : Char :=
  s.data.getLastD ' '

/-- Claim side description of the static analysis portion of an output
record: the comma delimited fields of the matched static analysis record,
newline stripped, minus its own class label value (its last field) removed
exactly once by value equality, kept in original order, each with a
trailing comma. -/
def specAsaPortionClaim (line : String) : Option String :=
  (pyRemove ((splitChar ',' line).map (fun f => removeChar '\n' f))
      (removeChar '\n' ((splitChar ',' line).getLastD ""))).map
    (fun l => catList (l.map (fun f => f ++ ",")))

example : splitChar ',' "a,b" = ["a", "b"] := by decide

example : splitChar ',' "" = [""] := by decide

example : getClass "a,b,pos\n" = "pos\n" := by decide

example : another_option_sm "1,a,3,pos\n" "pos\n" = some "1,a,3," := by decide

example : another_option_asa "a,t,5,pos\n" "pos\n" = some "t,5," := by decide

example : zeroFill 3 = "0,0,0," := by decide

example :
    processRecord [] "1,a,3,pos\n"
      = (["1,a,3," ++ zeroFill 19 ++ "pos\n"], none) := by decide

example :
    processRecord ["a,t,5,pos\n", "a,u,6,pos\n"] "1,a,3,pos\n"
      = (["1,a,3,t,5,pos\n", "1,a,3,u,6,pos\n"], none) := by decide

example : headerLine "h,x,class\n" "" = "h,x,class\n" := by decide

example :
    joinInit ["h,x,class\n", "1,a,3,pos\n"] ["ah\n", "a,t,5,pos\n"]
      = (["h,x,class\n", "1,a,3,t,5,pos\n"], none) := by decide

lemma catList_cons (a : String) (l : List String) :
    catList (a :: l) = a ++ catList l := rfl

lemma catList_append (a b : List String) :
    catList (a ++ b) = catList a ++ catList b := by
  induction a with
  | nil => simp [catList]
  | cons x a ih => simp [catList, ih, String.append_assoc]

lemma foldl_comma_eq_catList (l : List String) (s : String) :
    l.foldl (fun acc e => acc ++ "," ++ e) s
      = s ++ catList (l.map (fun e => "," ++ e)) := by
  induction l generalizing s with
  | nil => simp [catList]
  | cons a l ih =>
    simp only [List.foldl_cons, List.map_cons, catList]
    rw [ih]
    simp [String.append_assoc]

lemma joinTrailing_eq_catList (l : List String) :
    joinTrailing l = catList (l.map (fun e => removeChar '\n' e ++ ",")) := by
  have aux : ∀ (l : List String) (s : String),
      l.foldl (fun acc e => acc ++ removeChar '\n' e ++ ",") s
        = s ++ catList (l.map (fun e => removeChar '\n' e ++ ",")) := by
    intro l
    induction l with
    | nil => intro s; simp [catList]
    | cons a l ih =>
      intro s
      simp only [List.foldl_cons, List.map_cons, catList]
      rw [ih]
      simp [String.append_assoc]
  have h := aux l ""
  unfold joinTrailing
  rw [h]
  simp

lemma removeChar_of_not_mem {c : Char} {s : String} (h : c ∉ s.data) :
    removeChar c s = s := by
  unfold removeChar
  have : s.data.filter (fun x => x ≠ c) = s.data := by
    rw [List.filter_eq_self]
    intro a ha
    simp only [ne_eq, decide_eq_true_eq]
    intro he
    exact h (he ▸ ha)
  rw [this]

lemma removeChar_not_mem (c : Char) (s : String) :
    c ∉ (removeChar c s).data := by
  unfold removeChar
  intro h
  have := (List.mem_filter.mp h).2
  simp at this

lemma removeChar_idem (c : Char) (s : String) :
    removeChar c (removeChar c s) = removeChar c s :=
  removeChar_of_not_mem (removeChar_not_mem c s)

lemma splitCharAux_ne_nil (c : Char) (xs acc : List Char) :
    splitCharAux c xs acc ≠ [] := by
  induction xs generalizing acc with
  | nil => simp [splitCharAux]
  | cons x xs ih =>
    by_cases h : x = c <;> simp [splitCharAux, h, ih]

lemma splitChar_ne_nil (c : Char) (s : String) : splitChar c s ≠ [] :=
  splitCharAux_ne_nil c s.data []

lemma splitCharAux_append_sep (c : Char) (ys : List Char) :
    ∀ (xs acc : List Char),
      splitCharAux c (xs ++ c :: ys) acc
        = splitCharAux c xs acc ++ splitCharAux c ys [] := by
  intro xs
  induction xs with
  | nil => intro acc; simp [splitCharAux]
  | cons x xs ih =>
    intro acc
    by_cases h : x = c <;> simp [splitCharAux, h, ih]

lemma commaSplit_append (s t : String) :
    splitChar ',' (s ++ "," ++ t) = splitChar ',' s ++ splitChar ',' t := by
  unfold splitChar
  have h : (s ++ "," ++ t).data = s.data ++ ',' :: t.data := by
    simp [String.data_append]
  rw [h, splitCharAux_append_sep]

lemma splitCharAux_no_sep (c : Char) :
    ∀ (xs acc : List Char), (∀ a ∈ xs, a ≠ c) →
      splitCharAux c xs acc = [String.mk (acc.reverse ++ xs)] := by
  intro xs
  induction xs with
  | nil => intro acc _; simp [splitCharAux]
  | cons x xs ih =>
    intro acc h
    have hx : x ≠ c := h x (List.mem_cons_self x xs)
    simp only [splitCharAux, if_neg hx]
    rw [ih (x :: acc) (fun a ha => h a (List.mem_cons_of_mem x ha))]
    simp

lemma splitChar_of_no_sep (c : Char) (s : String) (h : ∀ a ∈ s.data, a ≠ c) :
    splitChar c s = [s] := by
  unfold splitChar
  rw [splitCharAux_no_sep c s.data [] h]
  rfl

lemma splitCharAux_mem_no_sep (c : Char) :
    ∀ (xs acc : List Char) (f : String), (∀ a ∈ acc, a ≠ c) →
      f ∈ splitCharAux c xs acc → ∀ ch ∈ f.data, ch ≠ c := by
  intro xs
  induction xs with
  | nil =>
    intro acc f hacc hf
    simp [splitCharAux] at hf
    subst hf
    intro ch hch
    simp at hch
    exact hacc ch hch
  | cons x xs ih =>
    intro acc f hacc hf
    by_cases h : x = c
    · simp [splitCharAux, h] at hf
      rcases hf with hf | hf
      · subst hf
        intro ch hch
        simp at hch
        exact hacc ch hch
      · exact ih [] f (by simp) hf
    · simp [splitCharAux, h] at hf
      refine ih (x :: acc) f ?_ hf
      intro a ha
      rcases List.mem_cons.mp ha with rfl | ha
      · exact h
      · exact hacc a ha

lemma splitChar_mem_no_sep {c : Char} {s : String} {f : String}
    (h : f ∈ splitChar c s) : ∀ ch ∈ f.data, ch ≠ c :=
  splitCharAux_mem_no_sep c s.data [] f (by simp) h

lemma splitChar_append_catList (l : List String) :
    ∀ s : String, (∀ f ∈ l, ∀ ch ∈ f.data, ch ≠ ',') →
      splitChar ',' (s ++ catList (l.map (fun e => "," ++ e)))
        = splitChar ',' s ++ l := by
  induction l with
  | nil =>
    intro s _
    simp [catList]
  | cons f l ih =>
    intro s h
    have hre : s ++ catList ((f :: l).map (fun e => "," ++ e))
        = s ++ "," ++ (f ++ catList (l.map (fun e => "," ++ e))) := by
      simp [catList, String.append_assoc]
    rw [hre, commaSplit_append]
    rw [ih f (fun g hg => h g (List.mem_cons_of_mem f hg))]
    rw [splitChar_of_no_sep ',' f (h f (List.mem_cons_self f l))]
    simp

lemma pyRemove_eq_none {l : List String} {x : String} :
    pyRemove l x = none ↔ x ∉ l := by
  induction l with
  | nil => simp [pyRemove]
  | cons a l ih =>
    by_cases h : a = x
    · subst h
      simp [pyRemove]
    · have h' : ¬ x = a := fun he => h he.symm
      simp [pyRemove, h, Option.map_eq_none', ih, List.mem_cons, h']

lemma pyRemove_mem {l l' : List String} {x : String}
    (h : pyRemove l x = some l') : ∀ a ∈ l', a ∈ l := by
  induction l generalizing l' with
  | nil => simp [pyRemove] at h
  | cons b l ih =>
    by_cases hb : b = x
    · simp [pyRemove, hb] at h
      subst h
      exact fun a ha => List.mem_cons_of_mem b ha
    · simp [pyRemove, hb] at h
      rcases h with ⟨m, hm, rfl⟩
      intro a ha
      rcases List.mem_cons.mp ha with rfl | ha
      · exact List.mem_cons_self a l
      · exact List.mem_cons_of_mem b (ih hm a ha)

lemma pyRemove_last :
    ∀ (l : List String) (x : String) (hne : l ≠ []),
      l.getLast hne = x → x ∉ l.dropLast → pyRemove l x = some l.dropLast := by
  intro l
  induction l with
  | nil => intro x hne; exact absurd rfl hne
  | cons a l ih =>
    intro x hne hlast hnd
    cases l with
    | nil =>
      simp at hlast
      simp [pyRemove, hlast]
    | cons b m =>
      have ha : ¬ a = x := by
        intro he
        subst he
        exact hnd (List.mem_cons_self a ((b :: m).dropLast))
      have hlast2 : (b :: m).getLast (by simp) = x := by
        rw [← hlast]
        exact (List.getLast_cons (by simp)).symm
      have hnd2 : x ∉ (b :: m).dropLast := by
        intro hx
        exact hnd (List.mem_cons_of_mem a hx)
      have hrec := ih x (by simp) hlast2 hnd2
      have hstep : pyRemove (a :: b :: m) x
          = (pyRemove (b :: m) x).map (fun r => a :: r) := by
        simp [pyRemove, ha]
      rw [hstep, hrec, Option.map_some']
      rfl

lemma scanAsa_cons_pos_some {fn a ce out : String} (esm : String)
    (l : List String) (h : fn = asaIdent a)
    (hao : another_option_asa a ce = some out) :
    scanAsa fn esm ce (a :: l)
      = ((esm ++ out ++ ce) :: (scanAsa fn esm ce l).1, true,
          (scanAsa fn esm ce l).2.2) := by
  simp [scanAsa, if_pos h, hao]

lemma scanAsa_cons_pos_none {fn a ce : String} (esm : String)
    (l : List String) (h : fn = asaIdent a)
    (hao : another_option_asa a ce = none) :
    scanAsa fn esm ce (a :: l) = ([], false, some JoinErr.valueError) := by
  simp [scanAsa, if_pos h, hao]

lemma scanAsa_cons_neg {fn a : String} (esm ce : String)
    (l : List String) (h : ¬ fn = asaIdent a) :
    scanAsa fn esm ce (a :: l) = scanAsa fn esm ce l := by
  simp [scanAsa, if_neg h]

lemma scanAsa_shape (fn esm ce : String) :
    ∀ (l : List String) (w : String),
      w ∈ (scanAsa fn esm ce l).1 → ∃ mid, w = esm ++ mid ++ ce := by
  intro l
  induction l with
  | nil => intro w hw; simp [scanAsa] at hw
  | cons a l ih =>
    intro w hw
    by_cases h : fn = asaIdent a
    · cases hao : another_option_asa a ce with
      | none => rw [scanAsa_cons_pos_none esm l h hao] at hw; simp at hw
      | some out =>
        rw [scanAsa_cons_pos_some esm l h hao] at hw
        rcases List.mem_cons.mp hw with rfl | hw
        · exact ⟨out, rfl⟩
        · exact ih w hw
    · rw [scanAsa_cons_neg esm ce l h] at hw
      exact ih w hw

lemma scanAsa_no_match (fn esm ce : String) :
    ∀ l : List String, (∀ a ∈ l, ¬ fn = asaIdent a) →
      scanAsa fn esm ce l = ([], false, none) := by
  intro l
  induction l with
  | nil => intro _; rfl
  | cons a l ih =>
    intro h
    rw [scanAsa_cons_neg esm ce l (h a (List.mem_cons_self a l))]
    exact ih (fun b hb => h b (List.mem_cons_of_mem a hb))

lemma scanAsa_err (fn esm ce : String) :
    ∀ (l : List String) (e : JoinErr),
      (scanAsa fn esm ce l).2.2 = some e → e = JoinErr.valueError := by
  intro l
  induction l with
  | nil => intro e he; simp [scanAsa] at he
  | cons a l ih =>
    intro e he
    by_cases h : fn = asaIdent a
    · cases hao : another_option_asa a ce with
      | none =>
        rw [scanAsa_cons_pos_none esm l h hao] at he
        simp at he
        exact he.symm
      | some out =>
        rw [scanAsa_cons_pos_some esm l h hao] at he
        exact ih e he
    · rw [scanAsa_cons_neg esm ce l h] at he
      exact ih e he

lemma matchCount_cons_pos {fn a : String} (l : List String)
    (h : fn = asaIdent a) :
    matchCount (a :: l) fn = matchCount l fn + 1 := by
  simp [matchCount, List.filter_cons, h]

lemma matchCount_cons_neg {fn a : String} (l : List String)
    (h : ¬ fn = asaIdent a) :
    matchCount (a :: l) fn = matchCount l fn := by
  simp [matchCount, List.filter_cons, h]

lemma scanAsa_count (fn esm ce : String) :
    ∀ l : List String, (scanAsa fn esm ce l).2.2 = none →
      (scanAsa fn esm ce l).1.length = matchCount l fn
        ∧ ((scanAsa fn esm ce l).2.1 = true ↔ 0 < matchCount l fn) := by
  intro l
  induction l with
  | nil => intro _; simp [scanAsa, matchCount]
  | cons a l ih =>
    intro hok
    by_cases h : fn = asaIdent a
    · cases hao : another_option_asa a ce with
      | none => rw [scanAsa_cons_pos_none esm l h hao] at hok; simp at hok
      | some out =>
        rw [scanAsa_cons_pos_some esm l h hao] at hok ⊢
        simp only [] at hok
        have hih := ih hok
        rw [matchCount_cons_pos l h]
        constructor
        · simp [hih.1]
        · simp
    · rw [scanAsa_cons_neg esm ce l h] at hok ⊢
      rw [matchCount_cons_neg l h]
      exact ih hok

lemma scanAsa_fail (fn esm ce a : String) :
    ∀ l : List String, a ∈ l → asaIdent a = fn →
      another_option_asa a ce = none →
      (scanAsa fn esm ce l).2.2 = some JoinErr.valueError := by
  intro l
  induction l with
  | nil => intro ha; simp at ha
  | cons b l ih =>
    intro ha hid hao
    by_cases h : fn = asaIdent b
    · cases hbo : another_option_asa b ce with
      | none => rw [scanAsa_cons_pos_none esm l h hbo]
      | some out =>
        have hab : a ≠ b := by
          intro he
          rw [he, hbo] at hao
          exact Option.noConfusion hao
        have ha' : a ∈ l := by
          rcases List.mem_cons.mp ha with he | ha'
          · exact absurd he hab
          · exact ha'
        rw [scanAsa_cons_pos_some esm l h hbo]
        exact ih ha' hid hao
    · have hab : a ≠ b := by
        intro he
        rw [← he, hid] at h
        exact h rfl
      have ha' : a ∈ l := by
        rcases List.mem_cons.mp ha with he | ha'
        · exact absurd he hab
        · exact ha'
      rw [scanAsa_cons_neg esm ce l h]
      exact ih ha' hid hao

lemma scanAsa_single (fn esm ce a out : String) :
    ∀ l : List String,
      l.filter (fun x => decide (fn = asaIdent x)) = [a] →
      another_option_asa a ce = some out →
      scanAsa fn esm ce l = ([esm ++ out ++ ce], true, none) := by
  intro l
  induction l with
  | nil => intro hf; simp at hf
  | cons b l ih =>
    intro hf hao
    by_cases h : fn = asaIdent b
    · rw [List.filter_cons_of_pos (by simp [h])] at hf
      have hb : b = a := (List.cons_eq_cons.mp hf).1
      have hrest : l.filter (fun x => decide (fn = asaIdent x)) = [] :=
        (List.cons_eq_cons.mp hf).2
      have hnone : ∀ x ∈ l, ¬ fn = asaIdent x := by
        intro x hx
        have := List.filter_eq_nil_iff.mp hrest x hx
        simpa using this
      subst hb
      rw [scanAsa_cons_pos_some esm l h hao, scanAsa_no_match fn esm ce l hnone]
    · rw [List.filter_cons_of_neg (by simp [h])] at hf
      rw [scanAsa_cons_neg esm ce l h]
      exact ih hf hao

lemma processRecord_fn_none {asaData : List String} {R : String}
    (hfn : fileNameSm R = none) :
    processRecord asaData R = ([], some JoinErr.malformedRecord) := by
  have h1 : (splitChar ',' R)[1]? = none := by
    unfold fileNameSm at hfn
    exact Option.map_eq_none'.mp hfn
  simp [processRecord, h1]

lemma processRecord_sm_none {asaData : List String} {R fn : String}
    (hfn : fileNameSm R = some fn) (hesm : smPortion R = none) :
    processRecord asaData R = ([], some JoinErr.valueError) := by
  rcases Option.map_eq_some'.mp hfn with ⟨f2, h1, h2⟩
  unfold smPortion at hesm
  simp [processRecord, h1, hesm]

lemma processRecord_scan_err {asaData : List String} {R fn esm : String}
    {ws : List String} {found : Bool} {e : JoinErr}
    (hfn : fileNameSm R = some fn) (hesm : smPortion R = some esm)
    (hscan : scanAsa fn esm (classElem R) asaData = (ws, found, some e)) :
    processRecord asaData R = (ws, some e) := by
  rcases Option.map_eq_some'.mp hfn with ⟨f2, h1, h2⟩
  unfold smPortion at hesm
  rw [← h2] at hscan
  simp [processRecord, h1, hesm, hscan]

lemma processRecord_scan_found {asaData : List String} {R fn esm : String}
    {ws : List String}
    (hfn : fileNameSm R = some fn) (hesm : smPortion R = some esm)
    (hscan : scanAsa fn esm (classElem R) asaData = (ws, true, none)) :
    processRecord asaData R = (ws, none) := by
  rcases Option.map_eq_some'.mp hfn with ⟨f2, h1, h2⟩
  unfold smPortion at hesm
  rw [← h2] at hscan
  simp [processRecord, h1, hesm, hscan]

lemma processRecord_scan_miss {asaData : List String} {R fn esm : String}
    {ws : List String}
    (hfn : fileNameSm R = some fn) (hesm : smPortion R = some esm)
    (hscan : scanAsa fn esm (classElem R) asaData = (ws, false, none)) :
    processRecord asaData R
      = (ws ++ [esm ++ zeroFill 19 ++ classElem R], none) := by
  rcases Option.map_eq_some'.mp hfn with ⟨f2, h1, h2⟩
  unfold smPortion at hesm
  rw [← h2] at hscan
  simp [processRecord, h1, hesm, hscan]

lemma processRecord_no_match {asaData : List String} {R fn esm : String}
    (hfn : fileNameSm R = some fn) (hesm : smPortion R = some esm)
    (hno : ∀ a ∈ asaData, ¬ fn = asaIdent a) :
    processRecord asaData R = ([esm ++ zeroFill 19 ++ classElem R], none) := by
  rw [processRecord_scan_miss hfn hesm
    (scanAsa_no_match fn esm (classElem R) asaData hno)]
  rfl

lemma processRecord_single {asaData : List String} {R fn esm a out : String}
    (hfn : fileNameSm R = some fn) (hesm : smPortion R = some esm)
    (hfilter : asaData.filter (fun x => decide (fn = asaIdent x)) = [a])
    (hao : another_option_asa a (classElem R) = some out) :
    processRecord asaData R = ([esm ++ out ++ classElem R], none) :=
  processRecord_scan_found hfn hesm
    (scanAsa_single fn esm (classElem R) a out asaData hfilter hao)

lemma processRecord_ok_core {asaData : List String} {R fn esm : String}
    (hfn : fileNameSm R = some fn) (hesm : smPortion R = some esm)
    (hok : (processRecord asaData R).2 = none) :
    (processRecord asaData R).1.length = max (matchCount asaData fn) 1
      ∧ (∀ w ∈ (processRecord asaData R).1,
          ∃ mid, w = esm ++ mid ++ classElem R)
      ∧ (scanAsa fn esm (classElem R) asaData).2.2 = none := by
  rcases hsc : scanAsa fn esm (classElem R) asaData with ⟨ws, found, err⟩
  cases err with
  | some e =>
    rw [processRecord_scan_err hfn hesm hsc] at hok
    simp at hok
  | none =>
    have hcnt := scanAsa_count fn esm (classElem R) asaData (by rw [hsc])
    rw [hsc] at hcnt
    simp only [] at hcnt
    cases found with
    | true =>
      have heq := processRecord_scan_found hfn hesm hsc
      have hpos : 0 < matchCount asaData fn := hcnt.2.mp rfl
      refine ⟨?_, ?_, rfl⟩
      · rw [heq]
        simp only []
        rw [hcnt.1]
        omega
      · intro w hw
        rw [heq] at hw
        simp only [] at hw
        have hw' : w ∈ (scanAsa fn esm (classElem R) asaData).1 := by
          rw [hsc]
          exact hw
        exact scanAsa_shape fn esm (classElem R) asaData w hw'
    | false =>
      have heq := processRecord_scan_miss hfn hesm hsc
      have hzero : matchCount asaData fn = 0 := by
        by_contra hne
        have := hcnt.2.mpr (Nat.pos_of_ne_zero hne)
        exact Bool.false_ne_true this
      have hws : ws = [] := by
        have := hcnt.1
        simp only [hzero] at this
        exact List.length_eq_zero.mp this
      refine ⟨?_, ?_, rfl⟩
      · rw [heq, hws, hzero]
        simp
      · intro w hw
        rw [heq, hws] at hw
        simp at hw
        subst hw
        exact ⟨zeroFill 19, rfl⟩

lemma processRecord_ok_some {asaData : List String} {R : String}
    (hok : (processRecord asaData R).2 = none) :
    ∃ fn esm, fileNameSm R = some fn ∧ smPortion R = some esm := by
  cases hfn : fileNameSm R with
  | none =>
    rw [processRecord_fn_none hfn] at hok
    simp at hok
  | some fn =>
    cases hesm : smPortion R with
    | none =>
      rw [processRecord_sm_none hfn hesm] at hok
      simp at hok
    | some esm => exact ⟨fn, esm, rfl, rfl⟩

lemma runRecords_cons_err {asaData : List String} {d : String}
    {ws : List String} {e : JoinErr} (rest : List String)
    (hpr : processRecord asaData d = (ws, some e)) :
    runRecords asaData (d :: rest) = (ws, some e) := by
  simp [runRecords, hpr]

lemma runRecords_cons_ok {asaData : List String} {d : String}
    {ws : List String} (rest : List String)
    (hpr : processRecord asaData d = (ws, none)) :
    runRecords asaData (d :: rest)
      = (ws ++ (runRecords asaData rest).1, (runRecords asaData rest).2) := by
  simp [runRecords, hpr]

lemma runRecords_ok_mem {asaData : List String} :
    ∀ (data : List String) (R : String),
      (runRecords asaData data).2 = none → R ∈ data →
        (processRecord asaData R).2 = none
          ∧ ∀ w ∈ (processRecord asaData R).1,
              w ∈ (runRecords asaData data).1 := by
  intro data
  induction data with
  | nil => intro R _ hR; simp at hR
  | cons d rest ih =>
    intro R hok hR
    cases hpr : (processRecord asaData d).2 with
    | some e =>
      have heq := runRecords_cons_err rest
        (show processRecord asaData d = ((processRecord asaData d).1, some e) from by
          rw [← hpr])
      rw [heq] at hok
      simp at hok
    | none =>
      have heq := runRecords_cons_ok rest
        (show processRecord asaData d = ((processRecord asaData d).1, none) from by
          rw [← hpr])
      rw [heq] at hok ⊢
      simp only [] at hok
      rcases List.mem_cons.mp hR with rfl | hR'
      · exact ⟨hpr, fun w hw => List.mem_append_left _ hw⟩
      · have := ih R hok hR'
        exact ⟨this.1, fun w hw => List.mem_append_right _ (this.2 w hw)⟩

lemma runRecords_mem_writes {asaData : List String} :
    ∀ (data : List String) (w : String),
      w ∈ (runRecords asaData data).1 →
        ∃ R ∈ data, w ∈ (processRecord asaData R).1 := by
  intro data
  induction data with
  | nil => intro w hw; simp [runRecords] at hw
  | cons d rest ih =>
    intro w hw
    cases hpr : (processRecord asaData d).2 with
    | some e =>
      have heq := runRecords_cons_err rest
        (show processRecord asaData d = ((processRecord asaData d).1, some e) from by
          rw [← hpr])
      rw [heq] at hw
      exact ⟨d, List.mem_cons_self d rest, hw⟩
    | none =>
      have heq := runRecords_cons_ok rest
        (show processRecord asaData d = ((processRecord asaData d).1, none) from by
          rw [← hpr])
      rw [heq] at hw
      rcases List.mem_append.mp hw with hw' | hw'
      · exact ⟨d, List.mem_cons_self d rest, hw'⟩
      · rcases ih w hw' with ⟨R, hR, hwR⟩
        exact ⟨R, List.mem_cons_of_mem d hR, hwR⟩

lemma runRecords_append_ok {asaData : List String} :
    ∀ (pre rest : List String), (runRecords asaData pre).2 = none →
      runRecords asaData (pre ++ rest)
        = ((runRecords asaData pre).1 ++ (runRecords asaData rest).1,
            (runRecords asaData rest).2) := by
  intro pre
  induction pre with
  | nil => intro rest _; simp [runRecords]
  | cons d pre ih =>
    intro rest hok
    cases hpr : (processRecord asaData d).2 with
    | some e =>
      have heq := runRecords_cons_err pre
        (show processRecord asaData d = ((processRecord asaData d).1, some e) from by
          rw [← hpr])
      rw [heq] at hok
      simp at hok
    | none =>
      have hpr' : processRecord asaData d = ((processRecord asaData d).1, none) := by
        rw [← hpr]
      have heq := runRecords_cons_ok pre hpr'
      rw [heq] at hok
      simp only [] at hok
      rw [List.cons_append, runRecords_cons_ok (pre ++ rest) hpr', ih rest hok,
        runRecords_cons_ok pre hpr']
      simp [List.append_assoc]

lemma joinInit_cons (hdr : String) (smData asaLines : List String) :
    joinInit (hdr :: smData) asaLines
      = (headerLine hdr (asaLines.headD "")
            :: (runRecords (asaLines.drop 1) smData).1,
          (runRecords (asaLines.drop 1) smData).2) := rfl

lemma str_empty_append (s : String) : "" ++ s = s :=
  String.ext (by simp [String.data_append])

lemma getLastD_eq_getLast {α : Type} :
    ∀ (l : List α) (d : α) (h : l ≠ []), l.getLastD d = l.getLast h := by
  intro l
  induction l with
  | nil => intro d h; exact absurd rfl h
  | cons a l ih =>
    intro d h
    cases l with
    | nil => rfl
    | cons b m =>
      rw [List.getLastD_cons]
      rw [ih a (by simp)]
      exact (List.getLast_cons (by simp)).symm

lemma getLastD_default_irrel {α : Type} (l : List α) (d d' : α)
    (h : l ≠ []) : l.getLastD d = l.getLastD d' := by
  rw [getLastD_eq_getLast l d h, getLastD_eq_getLast l d' h]

lemma dropRightN_append (bs t : String) (n : Nat)
    (h : t.data.length = n) :
    dropRightN (bs ++ t) n = bs := by
  unfold dropRightN
  rw [String.data_append, List.length_append, h]
  have h2 : bs.data.length + n - n = bs.data.length := by omega
  rw [h2, List.take_left]

lemma lastChar_append (s t : String) (h : t.data ≠ []) :
    lastChar (s ++ t) = lastChar t := by
  unfold lastChar
  rw [String.data_append]
  rw [List.getLastD_eq_getLast?, List.getLastD_eq_getLast?,
    List.getLast?_append_of_ne_nil s.data h]

lemma splitCharAux_last (c : Char) :
    ∀ (xs acc : List Char), xs.getLastD c ≠ c →
      ((splitCharAux c xs acc).getLastD "").data.getLastD c = xs.getLastD c
        ∧ ((splitCharAux c xs acc).getLastD "").data ≠ [] := by
  intro xs
  induction xs with
  | nil => intro acc h; exact absurd rfl h
  | cons x xs ih =>
    intro acc h
    cases xs with
    | nil =>
      have hx : x ≠ c := by simpa using h
      simp only [splitCharAux, if_neg hx]
      constructor
      · simp [List.reverse_cons]
      · simp
    | cons y m =>
      have hyn : (y :: m) ≠ ([] : List Char) := by simp
      have h' : (y :: m).getLastD c ≠ c := by
        rw [List.getLastD_cons] at h
        rw [getLastD_default_irrel (y :: m) c x hyn]
        exact h
      have hrhs : (x :: y :: m).getLastD c = (y :: m).getLastD c := by
        rw [List.getLastD_cons]
        exact getLastD_default_irrel (y :: m) x c hyn
      rw [hrhs]
      have hunf : splitCharAux c (x :: y :: m) acc
          = if x = c then String.mk acc.reverse :: splitCharAux c (y :: m) []
            else splitCharAux c (y :: m) (x :: acc) := rfl
      by_cases hx : x = c
      · rw [hunf, if_pos hx]
        have hne := splitCharAux_ne_nil c (y :: m) []
        have hcons : ((String.mk acc.reverse :: splitCharAux c (y :: m) []).getLastD "")
            = ((splitCharAux c (y :: m) []).getLastD "") := by
          rw [List.getLastD_cons]
          exact getLastD_default_irrel _ _ "" hne
        rw [hcons]
        exact ih [] h'
      · rw [hunf, if_neg hx]
        exact ih (x :: acc) h'

lemma getClass_last {R : String} (h : lastChar R = '\n') :
    lastChar (getClass R) = '\n' ∧ (getClass R).data ≠ [] := by
  have hne : R.data ≠ [] := by
    intro h0
    unfold lastChar at h
    rw [h0] at h
    exact absurd h (by decide)
  have hlast : R.data.getLastD ',' = '\n' := by
    unfold lastChar at h
    rw [getLastD_default_irrel R.data ',' ' ' hne]
    exact h
  have hnc : R.data.getLastD ',' ≠ ',' := by rw [hlast]; decide
  have haux := splitCharAux_last ',' R.data [] hnc
  have hgc : (getClass R) = ((splitCharAux ',' R.data []).getLastD "") := rfl
  constructor
  · unfold lastChar
    rw [hgc, getLastD_default_irrel _ ' ' ',' (hgc ▸ haux.2), haux.1, hlast]
  · rw [hgc]
    exact haux.2

lemma classElem_last {R : String} (h : lastChar R = '\n') :
    lastChar (classElem R) = '\n' ∧ (classElem R).data ≠ [] := by
  obtain ⟨h1, h2⟩ := getClass_last h
  have hg : (getClass R).data
      = (getClass R).data.dropLast ++ [(getClass R).data.getLast h2] :=
    (List.dropLast_append_getLast h2).symm
  have hlast : (getClass R).data.getLast h2 = '\n' := by
    rw [← getLastD_eq_getLast (getClass R).data ' ' h2]
    exact h1
  have hdata : (classElem R).data
      = (getClass R).data.dropLast.filter (fun x => x ≠ ' ') ++ ['\n'] := by
    show ((getClass R).data.filter (fun x => x ≠ ' ')) = _
    conv_lhs => rw [hg]
    rw [List.filter_append, hlast]
    simp
  constructor
  · unfold lastChar
    rw [hdata]
    simp
  · rw [hdata]
    simp

lemma headerLine_last (hsm hasa : String) :
    lastChar (headerLine hsm hasa) = '\n' := by
  unfold headerLine
  rw [lastChar_append _ "\n" (by decide)]
  decide

lemma processRecord_writes_suffix {asaData : List String} {R w : String}
    (hw : w ∈ (processRecord asaData R).1) :
    ∃ mid, w = mid ++ classElem R := by
  cases hfn : fileNameSm R with
  | none =>
    rw [processRecord_fn_none hfn] at hw
    simp at hw
  | some fn =>
    cases hesm : smPortion R with
    | none =>
      rw [processRecord_sm_none hfn hesm] at hw
      simp at hw
    | some esm =>
      rcases hsc : scanAsa fn esm (classElem R) asaData with ⟨ws, found, err⟩
      have hshape : ∀ v ∈ ws, ∃ mid, v = mid ++ classElem R := by
        intro v hv
        have hv' : v ∈ (scanAsa fn esm (classElem R) asaData).1 := by
          rw [hsc]; exact hv
        rcases scanAsa_shape fn esm (classElem R) asaData v hv' with ⟨mid, rfl⟩
        exact ⟨esm ++ mid, rfl⟩
      cases err with
      | some e =>
        rw [processRecord_scan_err hfn hesm hsc] at hw
        exact hshape w hw
      | none =>
        cases found with
        | true =>
          rw [processRecord_scan_found hfn hesm hsc] at hw
          exact hshape w hw
        | false =>
          rw [processRecord_scan_miss hfn hesm hsc] at hw
          rcases List.mem_append.mp hw with hw' | hw'
          · exact hshape w hw'
          · rcases List.mem_singleton.mp hw' with rfl
            exact ⟨esm ++ zeroFill 19, rfl⟩
lemma splitCharAux_filter (c d : Char) (hne : d ≠ c) :
    ∀ (xs acc : List Char),
      splitCharAux c (xs.filter (fun x => x ≠ d)) (acc.filter (fun x => x ≠ d))
        = (splitCharAux c xs acc).map
            (fun f => String.mk (f.data.filter (fun x => x ≠ d))) := by
  intro xs
  induction xs with
  | nil =>
    intro acc
    simp [splitCharAux, List.filter_reverse]
  | cons x xs ih =>
    intro acc
    by_cases hx : x = c
    · have hxd : x ≠ d := by
        rw [hx]
        exact fun h => hne h.symm
      rw [List.filter_cons_of_pos (by simpa using hxd)]
      have hunf1 : splitCharAux c (x :: List.filter (fun y => y ≠ d) xs)
            (acc.filter (fun y => y ≠ d))
          = String.mk (acc.filter (fun y => y ≠ d)).reverse
              :: splitCharAux c (List.filter (fun y => y ≠ d) xs) [] := by
        rw [show splitCharAux c (x :: List.filter (fun y => y ≠ d) xs)
              (acc.filter (fun y => y ≠ d))
            = if x = c
              then String.mk (acc.filter (fun y => y ≠ d)).reverse
                :: splitCharAux c (List.filter (fun y => y ≠ d) xs) []
              else splitCharAux c (List.filter (fun y => y ≠ d) xs)
                (x :: acc.filter (fun y => y ≠ d)) from rfl, if_pos hx]
      have hunf2 : splitCharAux c (x :: xs) acc
          = String.mk acc.reverse :: splitCharAux c xs [] := by
        rw [show splitCharAux c (x :: xs) acc
            = if x = c then String.mk acc.reverse :: splitCharAux c xs []
              else splitCharAux c xs (x :: acc) from rfl, if_pos hx]
      rw [hunf1, hunf2, List.map_cons]
      have hih := ih []
      simp only [List.filter_nil] at hih
      rw [hih]
      simp [List.filter_reverse]
    · have hunf2 : splitCharAux c (x :: xs) acc
          = splitCharAux c xs (x :: acc) := by
        rw [show splitCharAux c (x :: xs) acc
            = if x = c then String.mk acc.reverse :: splitCharAux c xs []
              else splitCharAux c xs (x :: acc) from rfl, if_neg hx]
      rw [hunf2]
      by_cases hd : x = d
      · subst hd
        rw [List.filter_cons_of_neg (by simp)]
        have hacc : (x :: acc).filter (fun y => y ≠ x) = acc.filter (fun y => y ≠ x) := by
          rw [List.filter_cons_of_neg (by simp)]
        rw [← hacc]
        exact ih (x :: acc)
      · have hxd : x ≠ d := hd
        rw [List.filter_cons_of_pos (by simpa using hxd)]
        have hunf1 : splitCharAux c (x :: List.filter (fun y => y ≠ d) xs)
              (acc.filter (fun y => y ≠ d))
            = splitCharAux c (List.filter (fun y => y ≠ d) xs)
                (x :: acc.filter (fun y => y ≠ d)) := by
          rw [show splitCharAux c (x :: List.filter (fun y => y ≠ d) xs)
                (acc.filter (fun y => y ≠ d))
              = if x = c
                then String.mk (acc.filter (fun y => y ≠ d)).reverse
                  :: splitCharAux c (List.filter (fun y => y ≠ d) xs) []
                else splitCharAux c (List.filter (fun y => y ≠ d) xs)
                  (x :: acc.filter (fun y => y ≠ d)) from rfl, if_neg hx]
        rw [hunf1]
        have hacc : (x :: acc).filter (fun y => y ≠ d)
            = x :: acc.filter (fun y => y ≠ d) := by
          rw [List.filter_cons_of_pos (by simpa using hxd)]
        rw [← hacc]
        exact ih (x :: acc)

lemma splitChar_removeChar {c d : Char} (hne : d ≠ c) (s : String) :
    splitChar c (removeChar d s)
      = (splitChar c s).map (fun f => removeChar d f) := by
  unfold splitChar removeChar
  have h := splitCharAux_filter c d hne s.data []
  simp only [List.filter_nil] at h
  exact h

/-- Claim C2: a software metrics data record whose file identifier
(second comma delimited field, quote stripped) matches no static analysis
data record produces exactly one output line whose static analysis
portion, placed between the metrics portion and the class label, is
exactly the string "0," repeated nineteen times. -/
theorem c2_zero_fill (hdr R fn esm : String) (smData asaLines : List String)
    (hfn : fileNameSm R = some fn) (hesm : smPortion R = some esm)
    (hno : ∀ a ∈ asaLines.drop 1, ¬ fn = asaIdent a)
    (hmem : R ∈ smData)
    (hok : (joinInit (hdr :: smData) asaLines).2 = none) :
    processRecord (asaLines.drop 1) R
        = ([esm ++ zeroFill 19 ++ classElem R], none)
      ∧ zeroFill 19 = "0,0,0,0,0,0,0,0,0,0,0,0,0,0,0,0,0,0,0,"
      ∧ (esm ++ zeroFill 19 ++ classElem R)
          ∈ (joinInit (hdr :: smData) asaLines).1 := by
  have hpr := processRecord_no_match hfn hesm hno
  have hok' : (runRecords (asaLines.drop 1) smData).2 = none := by
    rw [joinInit_cons] at hok
    exact hok
  have hmm := runRecords_ok_mem smData R hok' hmem
  refine ⟨hpr, by decide, ?_⟩
  rw [joinInit_cons]
  apply List.mem_cons_of_mem
  apply hmm.2
  rw [hpr]
  exact List.mem_singleton.mpr rfl

/-- Witness for C2 at a concrete input: the record with identifier b
matches no static analysis record, so the single output line is the
metrics portion, nineteen zero tokens, and the class label. -/
theorem c2_zero_fill_witness :
    processRecord (["ah\n", "a,t,5,pos\n"].drop 1) "1,b,3,pos\n"
        = (["1,b,3," ++ zeroFill 19 ++ classElem "1,b,3,pos\n"], none)
      ∧ zeroFill 19 = "0,0,0,0,0,0,0,0,0,0,0,0,0,0,0,0,0,0,0,"
      ∧ ("1,b,3," ++ zeroFill 19 ++ classElem "1,b,3,pos\n")
          ∈ (joinInit ["h,x,class\n", "1,b,3,pos\n"] ["ah\n", "a,t,5,pos\n"]).1 :=
  c2_zero_fill "h,x,class\n" "1,b,3,pos\n" "b" "1,b,3," ["1,b,3,pos\n"]
    ["ah\n", "a,t,5,pos\n"] (by decide) (by decide) (by decide) (by decide)
    (by decide)

/-- Claim C3: the scan over the static analysis data records does not stop
at the first identifier match: when the record processing succeeds and at
least one static analysis record matches, the record yields exactly as
many output lines as there are matching static analysis records,
duplicates included. -/
theorem c3_fan_out (asaData : List String) (R fn esm : String)
    (hfn : fileNameSm R = some fn) (hesm : smPortion R = some esm)
    (hok : (processRecord asaData R).2 = none)
    (hk : 1 ≤ matchCount asaData fn) :
    (processRecord asaData R).1.length = matchCount asaData fn := by
  have h := (processRecord_ok_core hfn hesm hok).1
  rw [h]
  exact Nat.max_eq_left hk

/-- Witness for C3 at a concrete input: two static analysis records share
the identifier of the metrics record and two output lines result. -/
theorem c3_fan_out_witness :
    (processRecord ["a,t,5,pos\n", "a,u,6,pos\n"] "1,a,3,pos\n").1.length
      = matchCount ["a,t,5,pos\n", "a,u,6,pos\n"] "a" :=
  c3_fan_out ["a,t,5,pos\n", "a,u,6,pos\n"] "1,a,3,pos\n" "a" "1,a,3,"
    (by decide) (by decide) (by decide) (by decide)

/-- Claim C4 counterexample: a software metrics record matched by two
static analysis records produces two output records, not exactly one, so
left outer join semantics with one output per driving record fails. -/
theorem c4_counterexample :
    ¬ ((processRecord ["a,t,5,pos\n", "a,u,6,pos\n"] "1,a,3,pos\n").1.length
        = 1) := by
  decide

/-- Claim C4 amended: when its processing completes without error, a
software metrics data record produces exactly max(k, 1) output records,
where k is the number of matching static analysis data records; this is
exactly one only when at most one static analysis record matches. -/
theorem c4_amended (asaData : List String) (R fn esm : String)
    (hfn : fileNameSm R = some fn) (hesm : smPortion R = some esm)
    (hok : (processRecord asaData R).2 = none) :
    (processRecord asaData R).1.length = max (matchCount asaData fn) 1 :=
  (processRecord_ok_core hfn hesm hok).1

/-- Witness for the amended C4 at a concrete input with no matching
static analysis record: exactly max(0, 1) = 1 output record. -/
theorem c4_amended_witness :
    (processRecord ["b,t,5,pos\n"] "1,a,3,pos\n").1.length
      = max (matchCount ["b,t,5,pos\n"] "a") 1 :=
  c4_amended ["b,t,5,pos\n"] "1,a,3,pos\n" "a" "1,a,3,"
    (by decide) (by decide) (by decide)

/-- Claim C7: the join aborts with the malformed record failure, writing
no further output, whenever a software metrics data line lacks the two
comma delimited fields needed to extract the identifier (the class label
and the static analysis identifier always exist, a split yields at least
one field); a line with at least two fields never triggers this
failure. -/
theorem c7_malformed (hdr R : String) (pre post asaLines : List String)
    (hpre : (runRecords (asaLines.drop 1) pre).2 = none)
    (hR : (splitChar ',' R).length < 2) :
    joinInit (hdr :: (pre ++ R :: post)) asaLines
        = (headerLine hdr (asaLines.headD "")
            :: (runRecords (asaLines.drop 1) pre).1,
           some JoinErr.malformedRecord)
      ∧ (∀ (asaData : List String) (S : String),
          2 ≤ (splitChar ',' S).length →
            (processRecord asaData S).2 ≠ some JoinErr.malformedRecord) := by
  constructor
  · have hfn : fileNameSm R = none := by
      unfold fileNameSm
      rw [List.getElem?_eq_none (by omega)]
      rfl
    have hpr : processRecord (asaLines.drop 1) R
        = ([], some JoinErr.malformedRecord) := processRecord_fn_none hfn
    have hcons := runRecords_cons_err post hpr
    rw [joinInit_cons, runRecords_append_ok pre (R :: post) hpre, hcons]
    simp
  · intro A S hS
    have h1 : (splitChar ',' S)[1]? = some ((splitChar ',' S).get ⟨1, by omega⟩) := by
      rw [List.getElem?_eq_getElem (by omega)]
      rfl
    have hfn' : fileNameSm S
        = some (removeChar '"' ((splitChar ',' S).get ⟨1, by omega⟩)) := by
      unfold fileNameSm
      rw [h1]
      rfl
    cases hesm : smPortion S with
    | none =>
      rw [processRecord_sm_none hfn' hesm]
      simp
    | some esm =>
      rcases hsc : scanAsa (removeChar '"' ((splitChar ',' S).get ⟨1, by omega⟩))
          esm (classElem S) A with ⟨ws, found, err⟩
      cases err with
      | some e =>
        have he : e = JoinErr.valueError :=
          scanAsa_err _ _ _ A e (by rw [hsc])
        rw [processRecord_scan_err hfn' hesm hsc]
        simp [he]
      | none =>
        cases found with
        | true =>
          rw [processRecord_scan_found hfn' hesm hsc]
          simp
        | false =>
          rw [processRecord_scan_miss hfn' hesm hsc]
          simp

/-- Witness for C7 at a concrete input: the data line nocomma has a
single field, so the run aborts right after the header with the
malformed record failure, and a well formed line never raises it. -/
theorem c7_malformed_witness :
    joinInit ["h,x,class\n", "nocomma"] []
        = (headerLine "h,x,class\n" ([].headD "")
            :: (runRecords ([].drop 1) []).1,
           some JoinErr.malformedRecord)
      ∧ (∀ (asaData : List String) (S : String),
          2 ≤ (splitChar ',' S).length →
            (processRecord asaData S).2 ≠ some JoinErr.malformedRecord) :=
  c7_malformed "h,x,class\n" "nocomma" [] [] [] (by decide) (by decide)

/-- Claim C10: when a matched static analysis record, stripped of all
spaces and newlines, has no comma delimited field equal to the software
metrics record class label (space and newline stripped), the removal step
fails, no output line is produced from that match, and the whole join
aborts with the uncaught ValueError. -/
theorem c10_value_error (hdr R a fn esm : String)
    (pre post asaLines : List String)
    (hpre : (runRecords (asaLines.drop 1) pre).2 = none)
    (hfn : fileNameSm R = some fn) (hesm : smPortion R = some esm)
    (ha : a ∈ asaLines.drop 1) (hmatch : asaIdent a = fn)
    (hmiss : removeChar '\n' (removeChar ' ' (classElem R))
        ∉ splitChar ',' (removeChar '\n' (removeChar ' ' a))) :
    (joinInit (hdr :: (pre ++ R :: post)) asaLines).2
        = some JoinErr.valueError
      ∧ another_option_asa a (classElem R) = none := by
  have hao : another_option_asa a (classElem R) = none := by
    unfold another_option_asa
    simp only [pyRemove_eq_none.mpr hmiss, Option.map_none']
  have hscan_err := scanAsa_fail fn esm (classElem R) a
    (asaLines.drop 1) ha hmatch hao
  have hpr : (processRecord (asaLines.drop 1) R).2
      = some JoinErr.valueError := by
    rcases hsc : scanAsa fn esm (classElem R) (asaLines.drop 1)
      with ⟨ws, found, err⟩
    rw [hsc] at hscan_err
    have herr : err = some JoinErr.valueError := hscan_err
    subst herr
    rw [processRecord_scan_err hfn hesm hsc]
  refine ⟨?_, hao⟩
  rw [joinInit_cons]
  rw [runRecords_append_ok pre (R :: post) hpre]
  have hcons := runRecords_cons_err post
    (show processRecord (asaLines.drop 1) R
        = ((processRecord (asaLines.drop 1) R).1, some JoinErr.valueError)
      from by rw [← hpr])
  rw [hcons]

/-- Witness for C10 at a concrete input: the matched record carries class
label neg while the metrics record carries pos, removal of pos fails and
the run aborts with a ValueError. -/
theorem c10_value_error_witness :
    (joinInit ["h,x,class\n", "1,a,3,pos\n"] ["ah\n", "a,t,5,neg\n"]).2
        = some JoinErr.valueError
      ∧ another_option_asa "a,t,5,neg\n" (classElem "1,a,3,pos\n") = none :=
  c10_value_error "h,x,class\n" "1,a,3,pos\n" "a,t,5,neg\n" "a" "1,a,3,"
    [] [] ["ah\n", "a,t,5,neg\n"] (by decide) (by decide) (by decide)
    (by decide) (by decide) (by decide)

lemma concat3_take (w p m q : String) (h : w = p ++ m ++ q) :
    w.data.take p.data.length = p.data := by
  subst h
  rw [String.data_append, String.data_append, List.append_assoc,
    List.take_left]

/-- Claim C1 counterexample: in the record pos,x,pos (a final line without
a trailing newline) the class label value pos also occurs as the first
field, so the removal by value deletes the first field instead of the
label: the emitted leading fields are x,pos, and not pos,x, and no output
record starts with the non label fields of the record. -/
theorem c1_counterexample :
    ¬ hasRecordWith (joinInit ["h,x,class\n", "pos,x,pos"] []).1
        (specLeading "pos,x,pos") (getClass "pos,x,pos") := by
  intro hcl
  rcases hcl with ⟨w, hw, mid, he⟩
  have hpre := concat3_take w (specLeading "pos,x,pos") mid
    (getClass "pos,x,pos") he
  have hws : (joinInit ["h,x,class\n", "pos,x,pos"] []).1
      = ["h,x,class\n", "x,pos," ++ zeroFill 19 ++ "pos"] := by decide
  rw [hws] at hw
  rcases List.mem_cons.mp hw with rfl | hw'
  · exact absurd hpre (by decide)
  · rcases List.mem_cons.mp hw' with rfl | hw''
    · exact absurd hpre (by decide)
    · simp at hw''

/-- Claim C1 amended: for every software metrics data record whose class
label field contains no spaces, does not also occur among the earlier
fields, and whose non label fields contain no newline, if the run
completes without error then at least one output record consists of the
record non label fields in order, each comma terminated, followed by some
static analysis portion and the record class label. -/
theorem c1_amended (hdr R : String) (smData asaLines : List String)
    (hmem : R ∈ smData)
    (hok : (joinInit (hdr :: smData) asaLines).2 = none)
    (h1 : removeChar ' ' (getClass R) = getClass R)
    (h2 : getClass R ∉ (splitChar ',' R).dropLast)
    (h3 : ∀ f ∈ (splitChar ',' R).dropLast, '\n' ∉ f.data) :
    hasRecordWith (joinInit (hdr :: smData) asaLines).1
      (specLeading R) (getClass R) := by
  have hok' : (runRecords (asaLines.drop 1) smData).2 = none := by
    rw [joinInit_cons] at hok
    exact hok
  have hmm := runRecords_ok_mem smData R hok' hmem
  obtain ⟨fn, esm, hfn, hesm⟩ := processRecord_ok_some hmm.1
  have hce : classElem R = getClass R := h1
  have hne : splitChar ',' R ≠ [] := splitChar_ne_nil ',' R
  have hlast : (splitChar ',' R).getLast hne = getClass R := by
    unfold getClass
    exact (getLastD_eq_getLast _ "" hne).symm
  have hrem : pyRemove (splitChar ',' R) (getClass R)
      = some (splitChar ',' R).dropLast :=
    pyRemove_last (splitChar ',' R) (getClass R) hne hlast h2
  have hsm : smPortion R
      = some (joinTrailing (splitChar ',' R).dropLast) := by
    unfold smPortion another_option_sm
    rw [hce, hrem]
    rfl
  have hesm' : esm = joinTrailing (splitChar ',' R).dropLast := by
    rw [hesm] at hsm
    exact Option.some.inj hsm
  have hspec : joinTrailing (splitChar ',' R).dropLast = specLeading R := by
    rw [joinTrailing_eq_catList]
    unfold specLeading
    congr 1
    apply List.map_congr_left
    intro f hf
    rw [removeChar_of_not_mem (h3 f hf)]
  have hcore := processRecord_ok_core hfn hesm hmm.1
  have hlen : 0 < (processRecord (asaLines.drop 1) R).1.length := by
    rw [hcore.1]
    omega
  obtain ⟨w, hw⟩ := List.exists_mem_of_length_pos hlen
  obtain ⟨mid, hmid⟩ := hcore.2.1 w hw
  refine ⟨w, ?_, mid, ?_⟩
  · rw [joinInit_cons]
    exact List.mem_cons_of_mem _ (hmm.2 w hw)
  · rw [hmid, hesm', hspec, hce]

/-- Witness for the amended C1 at a concrete input: the single data
record yields an output record led by its non label fields 1,a,3, and
ended by its class label. -/
theorem c1_amended_witness :
    hasRecordWith (joinInit ["h,x,class\n", "1,a,3,pos\n"] []).1
      (specLeading "1,a,3,pos\n") (getClass "1,a,3,pos\n") :=
  c1_amended "h,x,class\n" "1,a,3,pos\n" ["1,a,3,pos\n"] [] (by decide)
    (by decide) (by decide) (by decide) (by decide)

/-- Claim C8 counterexample: when the final software metrics line has no
trailing newline (legal for the last line of a file), the join appends no
newline of its own, so the corresponding output line is not newline
terminated. -/
theorem c8_counterexample :
    ((joinInit ["h,x,class\n", "1,a,3,pos"] []).1.all
        (fun w => lastChar w == '\n')) = false := by
  decide

/-- Claim C8 amended: the merged header is always newline terminated, and
every per record output line is newline terminated provided every
software metrics data line itself ends with a newline: the code appends
no newline to data lines, the terminator is the one surviving inside the
class label taken from the input line. -/
theorem c8_amended (hdr : String) (smData asaLines : List String)
    (h : ∀ R ∈ smData, lastChar R = '\n') :
    ((joinInit (hdr :: smData) asaLines).1.all
        (fun w => lastChar w == '\n')) = true := by
  rw [List.all_eq_true]
  intro w hw
  rw [beq_iff_eq]
  rw [joinInit_cons] at hw
  rcases List.mem_cons.mp hw with rfl | hw'
  · exact headerLine_last hdr (asaLines.headD "")
  · obtain ⟨R, hR, hwR⟩ := runRecords_mem_writes smData w hw'
    obtain ⟨mid, rfl⟩ := processRecord_writes_suffix hwR
    obtain ⟨hcl, hcd⟩ := classElem_last (h R hR)
    rw [lastChar_append mid (classElem R) hcd]
    exact hcl

/-- Witness for the amended C8 at a concrete input whose data line is
newline terminated: every output line ends with a newline. -/
theorem c8_amended_witness :
    ((joinInit ["h,x,class\n", "1,a,3,pos\n"] ["ah\n"]).1.all
        (fun w => lastChar w == '\n')) = true :=
  c8_amended "h,x,class\n" ["1,a,3,pos\n"] ["ah\n"] (by decide)

/-- Claim C9 counterexample: at a concrete input the run opens the
software metrics stream (and the others) yet its event trace contains no
close event at all, so the streams are not released on this exit path;
the source contains no close call and no scoped acquisition on any
path. -/
theorem c9_counterexample :
    StreamEvent.openStream "csv_sm"
        ∈ mainStreamEvents ["h,x,class\n", "1,a,3,pos\n"] ["ah\n"]
      ∧ StreamEvent.closeStream "csv_sm"
          ∉ mainStreamEvents ["h,x,class\n", "1,a,3,pos\n"] ["ah\n"]
      ∧ StreamEvent.closeStream "csv_asa"
          ∉ mainStreamEvents ["h,x,class\n", "1,a,3,pos\n"] ["ah\n"]
      ∧ StreamEvent.closeStream "new_Union"
          ∉ mainStreamEvents ["h,x,class\n", "1,a,3,pos\n"] ["ah\n"] := by
  decide

/-- Claim C9 amended: on every input the join opens the two input streams
and main opens the output stream, and no close event ever occurs: release
is left to interpreter teardown on every exit path, normal or
exceptional. -/
theorem c9_amended (smLines asaLines : List String) :
    StreamEvent.openStream "csv_sm" ∈ joinInitEvents smLines asaLines
      ∧ StreamEvent.openStream "csv_asa" ∈ joinInitEvents smLines asaLines
      ∧ StreamEvent.openStream "new_Union" ∈ mainStreamEvents smLines asaLines
      ∧ ((mainStreamEvents smLines asaLines).all
          (fun e => !(isClose e))) = true := by
  refine ⟨?_, ?_, ?_, ?_⟩ <;> simp [joinInitEvents, mainStreamEvents, isClose]

/-- Claim C5 counterexample: with a software metrics header of three
fields and a static analysis header of twenty one fields, the merged
header has 2 + 19 + 1 = 22 fields, not (3 - 1) + 18 + 1 = 21: the code
slice [1:20] takes nineteen static analysis header fields (fields 2 to
20), not eighteen. -/
theorem c5_counterexample :
    (splitChar ',' (headerLine "a,b,class\n"
        "t,n01,n02,n03,n04,n05,n06,n07,n08,n09,n10,n11,n12,n13,n14,n15,n16,n17,n18,n19,class\n")).length
      ≠ ((splitChar ',' "a,b,class\n").length - 1) + 18 + 1 := by
  decide

/-- Claim C5 amended: when the software metrics header ends with the
class column (literally ",class" and a newline) and the static analysis
header has at least twenty comma delimited fields, the merged header is
the software metrics header without its class column, followed by the
static analysis header fields 2 to 20 (nineteen fields) each preceded by
a comma, followed by ",class" and a newline; its field count is
(software metrics header field count - 1) + 19 + 1. -/
theorem c5_amended (bs hasa : String)
    (h20 : 20 ≤ (splitChar ',' hasa).length) :
    headerLine (bs ++ ",class\n") hasa
        = bs ++ catList ((((splitChar ',' hasa).drop 1).take 19).map
            (fun e => "," ++ e)) ++ ",class\n"
      ∧ (splitChar ',' (headerLine (bs ++ ",class\n") hasa)).length
          = ((splitChar ',' (bs ++ ",class\n")).length - 1) + 19 + 1 := by
  have hlen19 : (((splitChar ',' hasa).drop 1).take 19).length = 19 := by
    rw [List.length_take, List.length_drop]
    omega
  have hfree : ∀ f ∈ ((splitChar ',' hasa).drop 1).take 19,
      ∀ ch ∈ f.data, ch ≠ ',' := by
    intro f hf
    exact splitChar_mem_no_sep (List.mem_of_mem_drop (List.mem_of_mem_take hf))
  have hstruct : headerLine (bs ++ ",class\n") hasa
      = bs ++ catList ((((splitChar ',' hasa).drop 1).take 19).map
          (fun e => "," ++ e)) ++ ",class\n" := by
    simp only [headerLine]
    rw [foldl_comma_eq_catList]
    rw [dropRightN_append bs ",class\n" 7 (by decide)]
    rw [str_empty_append]
    rw [String.append_assoc
      (bs ++ catList ((((splitChar ',' hasa).drop 1).take 19).map
        (fun e => "," ++ e))) ",class" "\n"]
    rw [show (",class" ++ "\n" : String) = ",class\n" from by decide]
  have hbs : splitChar ',' (bs ++ ",class\n")
      = splitChar ',' bs ++ ["class\n"] := by
    rw [show (",class\n" : String) = "," ++ "class\n" from by decide]
    rw [← String.append_assoc]
    rw [commaSplit_append]
    rw [splitChar_of_no_sep ',' "class\n" (by decide)]
  have hout : splitChar ',' (bs ++ catList ((((splitChar ',' hasa).drop 1).take 19).map
        (fun e => "," ++ e)) ++ ",class\n")
      = splitChar ',' bs ++ ((splitChar ',' hasa).drop 1).take 19
          ++ ["class\n"] := by
    rw [show (",class\n" : String) = "," ++ "class\n" from by decide]
    rw [← String.append_assoc]
    rw [commaSplit_append]
    rw [splitChar_of_no_sep ',' "class\n" (by decide)]
    rw [splitChar_append_catList _ bs hfree]
  refine ⟨hstruct, ?_⟩
  rw [hstruct, hout, hbs]
  simp only [List.length_append, hlen19, List.length_singleton]
  omega

/-- Witness for the amended C5 at concrete headers: nineteen static
analysis header fields are taken and the count identity holds with 19,
giving a 22 field merged header. -/
theorem c5_amended_witness :
    headerLine ("a,b" ++ ",class\n")
        "t,n01,n02,n03,n04,n05,n06,n07,n08,n09,n10,n11,n12,n13,n14,n15,n16,n17,n18,n19,class\n"
        = "a,b" ++ catList ((((splitChar ','
            "t,n01,n02,n03,n04,n05,n06,n07,n08,n09,n10,n11,n12,n13,n14,n15,n16,n17,n18,n19,class\n").drop 1).take 19).map
            (fun e => "," ++ e)) ++ ",class\n"
      ∧ (splitChar ',' (headerLine ("a,b" ++ ",class\n")
            "t,n01,n02,n03,n04,n05,n06,n07,n08,n09,n10,n11,n12,n13,n14,n15,n16,n17,n18,n19,class\n")).length
          = ((splitChar ',' ("a,b" ++ ",class\n")).length - 1) + 19 + 1 :=
  c5_amended "a,b"
    "t,n01,n02,n03,n04,n05,n06,n07,n08,n09,n10,n11,n12,n13,n14,n15,n16,n17,n18,n19,class\n"
    (by decide)

/-- Claim C6 counterexample: for the metrics record 1,a,3,pos matched by
exactly the static analysis record a,t,5,pos, the emitted static analysis
portion is t,5, (the code also drops the leading identifier field), while
the fields minus the class label value alone would be a,t,5, - the two
differ. -/
theorem c6_counterexample :
    processRecord ["a,t,5,pos\n"] "1,a,3,pos\n"
        = (["1,a,3," ++ "t,5," ++ classElem "1,a,3,pos\n"], none)
      ∧ another_option_asa "a,t,5,pos\n" (classElem "1,a,3,pos\n")
          = some "t,5,"
      ∧ specAsaPortionClaim "a,t,5,pos\n" = some "a,t,5,"
      ∧ ("t,5," : String) ≠ "a,t,5," := by
  refine ⟨by decide, by decide, by decide, by decide⟩

/-- Claim C6 amended: for a software metrics record matched by exactly
one static analysis record, the emitted static analysis portion is
obtained from the matched record fields with all spaces and newlines
stripped, the metrics record class label value (space and newline
stripped) removed exactly once by first occurrence value equality, and
the then leading field (the identifier) dropped, the remaining fields in
original order each comma terminated; the record produces exactly that
one output line. -/
theorem c6_amended (asaData : List String) (R a fn esm : String)
    (l2 : List String)
    (hfn : fileNameSm R = some fn) (hesm : smPortion R = some esm)
    (hfilter : asaData.filter (fun x => decide (fn = asaIdent x)) = [a])
    (hrem : pyRemove ((splitChar ',' a).map
        (fun f => removeChar '\n' (removeChar ' ' f)))
        (removeChar '\n' (classElem R)) = some l2) :
    processRecord asaData R
      = ([esm ++ catList ((l2.drop 1).map (fun f => f ++ ","))
            ++ classElem R], none) := by
  have hsplit : splitChar ',' (removeChar '\n' (removeChar ' ' a))
      = (splitChar ',' a).map
          (fun f => removeChar '\n' (removeChar ' ' f)) := by
    rw [splitChar_removeChar (by decide) (removeChar ' ' a)]
    rw [splitChar_removeChar (by decide) a]
    rw [List.map_map]
    rfl
  have hce : removeChar '\n' (removeChar ' ' (classElem R))
      = removeChar '\n' (classElem R) := by
    unfold classElem
    rw [removeChar_idem]
  have hao : another_option_asa a (classElem R)
      = some (joinTrailing (l2.drop 1)) := by
    unfold another_option_asa
    simp only [hce, hsplit, hrem, Option.map_some']
  have hjoin : joinTrailing (l2.drop 1)
      = catList ((l2.drop 1).map (fun f => f ++ ",")) := by
    rw [joinTrailing_eq_catList]
    congr 1
    apply List.map_congr_left
    intro f hf
    have hfl2 : f ∈ l2 := List.mem_of_mem_drop hf
    have hmem := pyRemove_mem hrem f hfl2
    rcases List.mem_map.mp hmem with ⟨g, _, rfl⟩
    rw [removeChar_of_not_mem (removeChar_not_mem '\n' (removeChar ' ' g))]
  exact processRecord_single hfn hesm hfilter (by rw [hao, hjoin])

/-- Witness for the amended C6 at a concrete input: the single matched
record a,t,5,pos gives the portion t,5, between the metrics portion and
the class label. -/
theorem c6_amended_witness :
    processRecord ["a,t,5,pos\n"] "1,a,3,pos\n"
      = (["1,a,3," ++ catList (((["a", "t", "5"] : List String).drop 1).map
            (fun f => f ++ ","))
          ++ classElem "1,a,3,pos\n"], none) :=
  c6_amended ["a,t,5,pos\n"] "1,a,3,pos\n" "a,t,5,pos\n" "a" "1,a,3,"
    ["a", "t", "5"] (by decide) (by decide) (by decide) (by decide)
